import Mathlib

/-!
Shallow embedding of the message-to-post assembly pipeline of
`tg-chat-parser` (files `src/tg_client.py`, `src/docx_client.py`,
`src/utils.py`), together with theorems checking the natural-language
specification against it.

Modelling conventions:
* Python `datetime` values are totally ordered; they are modelled as `Int`
  timestamps.
* A Telethon `Message` is modelled by the fields the pipeline reads:
  `id`, `message` (the text, `None` or a string), `date`, `grouped_id`,
  whether `message.media` is a photo/document (`hasMedia`), whether
  `message.action is not None` (`action_`), and its `entities` list.
* Fallible remote calls (`client.download_media`) are modelled by an
  oracle `dl : Message → Except String (Option String)`: `.error` is a
  raised exception, `.ok none` a falsy return, `.ok (some p)` a path.
* Progress-callback invocations are collected into a list of
  `(downloaded, total)` pairs instead of performing I/O.
-/

/-- Kind of a Telegram `MessageEntity`, as dispatched on `type(entity).__name__`
in `DocxExporter._add_formatted_text`. -/
inductive MessageEntityKind where
  | bold
  | italic
  | code
  | pre
  | textUrl (url : Option String)
  | bareUrl
  | other
deriving DecidableEq, Repr

/-- A Telegram `MessageEntity`: an `(offset, length)` span over the message
text plus a formatting kind. -/
structure MessageEntity where
  offset : Nat
  length : Nat
  kind : MessageEntityKind
deriving DecidableEq, Repr

/-- The fields of a Telethon `Message` read by the pipeline.  `message` is the
raw text (`none` models Python `None`); `hasMedia` models
`isinstance(message.media, (MessageMediaPhoto, MessageMediaDocument))`;
`action_` models `message.action is not None`. -/
structure Message where
  id : Nat
  message : Option String
  date : Int
  grouped_id : Option Nat
  hasMedia : Bool
  action_ : Bool
  entities : List MessageEntity
deriving DecidableEq, Repr

/-- `ContentBlock` from `src/tg_client.py`: one logical post. -/
structure ContentBlock where
  date : Int
  text : String
  entities : List MessageEntity
  media_paths : List String
  _messages : List Message
deriving DecidableEq, Repr

/-- Python truthiness of an optional string: `None` and `""` are falsy. -/
def pyTruthy : Option String → Bool
  | none => false
  | some s => s ≠ ""

/-- Python `x or ""` for an optional string `x`: yields `""` when `x` is
`None` or `""`, and `x` otherwise.  (This coincides with `Option.getD`.) -/
def orEmpty : Option String → String
  | none => ""
  | some s => s

/-- Python `str.strip()` on a code-point list: drop whitespace from both
ends. -/
def pyStrip (s : List Char) : List Char :=
  ((s.dropWhile Char.isWhitespace).reverse.dropWhile Char.isWhitespace).reverse

/-- The predicate of the representative search in
`AlbumGrouper._merge_grouped_messages`: `msg.message and msg.message.strip()`
is truthy, i.e. the text is present and non-empty after stripping
whitespace. -/
def hasNonBlankText (m : Message) : Bool :=
  match m.message with
  | none => false
  | some s => s ≠ "" && pyStrip s.data ≠ []

/-- Key order used by `messages.sort(key=lambda m: m.id)`.  Python `sort` is
a stable sort by the key; it is modelled by the (stable) `insertionSort`. -/
abbrev idLe (a b : Message) : Prop := a.id ≤ b.id

/-- `AlbumGrouper._merge_grouped_messages` (src/tg_client.py lines 70-102):
sort the members by id, pick as `text_message` the first member with
non-blank text (falling back to the first member), and build a
`ContentBlock` carrying its date, text and entities, with the sorted
member list stored for later media download. -/
def merge_grouped_messages (messages : List Message) : Option ContentBlock :=
  let sorted := List.insertionSort idLe messages
  match sorted with
  | [] => none
  | first :: _ =>
    let text_message := (sorted.find? hasNonBlankText).getD first
    some { date := text_message.date
           text := orEmpty text_message.message
           entities := text_message.entities
           media_paths := []
           _messages := sorted }

/-- `AlbumGrouper._create_block_from_message` (src/tg_client.py lines
104-115): drop the message when it has neither text nor media, otherwise
build a standalone `ContentBlock`. -/
def create_block_from_message (m : Message) : Option ContentBlock :=
  if ¬ pyTruthy m.message ∧ ¬ m.hasMedia then
    none
  else
    some { date := m.date
           text := orEmpty m.message
           entities := m.entities
           media_paths := []
           _messages := [m] }

/-- The message-collection loop of `TelegramFetcher.fetch_messages`
(src/tg_client.py lines 222-237), applied to the stream yielded by
`iter_messages`: `break` on the first message dated before `start_date`,
`continue` past messages dated after `end_date` and past service messages,
collect the rest. -/
def collectMessages (start_date end_date : Int) : List Message → List Message
  | [] => []
  | m :: rest =>
    if m.date < start_date then
      []
    else if m.date > end_date then
      collectMessages start_date end_date rest
    else if m.action_ then
      collectMessages start_date end_date rest
    else
      m :: collectMessages start_date end_date rest

/-- The media precount of `fetch_messages` (lines 239-242): the number of
collected messages whose media is a photo or document. -/
def total_media_items (msgs : List Message) : Nat :=
  (msgs.filter (fun m => m.hasMedia)).length

/-- Append a message to the entry of its `grouped_id` in the insertion-ordered
dictionary `grouped_messages`, creating the entry at the end when absent
(Python dicts preserve insertion order). -/
def insertGrouped (d : List (Nat × List Message)) (k : Nat) (m : Message) :
    List (Nat × List Message) :=
  match d with
  | [] => [(k, [m])]
  | (k2, ms) :: rest =>
    if k2 = k then (k2, ms ++ [m]) :: rest
    else (k2, ms) :: insertGrouped rest k m

/-- One iteration of the grouping pass of `fetch_messages` (lines 249-256):
a message with a `grouped_id` goes into the dictionary, the rest are
appended to `standalone_messages`. -/
def groupStep (acc : List (Nat × List Message) × List Message) (m : Message) :
    List (Nat × List Message) × List Message :=
  match m.grouped_id with
  | some gid => (insertGrouped acc.1 gid m, acc.2)
  | none => (acc.1, acc.2 ++ [m])

/-- The grouping pass of `fetch_messages` (lines 246-256): split the
collected messages into the `grouped_messages` dictionary and the
`standalone_messages` list, both in arrival order. -/
def groupSplit (msgs : List Message) :
    List (Nat × List Message) × List Message :=
  msgs.foldl groupStep ([], [])

/-- Block construction of `fetch_messages` (lines 258-270): merged album
blocks first (dictionary order), then standalone blocks. -/
def buildBlocks (collected : List Message) : List ContentBlock :=
  let split := groupSplit collected
  (split.1.filterMap (fun p => merge_grouped_messages p.2)) ++
    (split.2.filterMap create_block_from_message)

/-- `TelegramFetcher._download_media_for_block` (lines 292-327) on the
message list of one block: for each message carrying media, attempt the
download; on success append the returned path (when truthy), increment the
counter and invoke the progress callback with `(counter, total)`; on an
exception log and move on.  Returns the appended paths, the final counter,
and the callback invocations in order. -/
def download_media_for_block (dl : Message → Except String (Option String)) :
    List Message → Nat → Nat → List String × Nat × List (Nat × Nat)
  | [], downloaded, _ => ([], downloaded, [])
  | m :: rest, downloaded, total =>
    if m.hasMedia then
      match dl m with
      | Except.ok fp =>
        let newPaths := match fp with
          | some p => [p]
          | none => []
        let d2 := downloaded + 1
        let r := download_media_for_block dl rest d2 total
        (newPaths ++ r.1, r.2.1, (d2, total) :: r.2.2)
      | Except.error _ =>
        download_media_for_block dl rest downloaded total
    else
      download_media_for_block dl rest downloaded total

/-- The materialization loop of `fetch_messages` (lines 272-282): download
media for each block in production order, threading the counter, then clear
the block's `_messages`. -/
def materializeBlocks (dl : Message → Except String (Option String)) :
    List ContentBlock → Nat → Nat → List ContentBlock × Nat × List (Nat × Nat)
  | [], downloaded, _ => ([], downloaded, [])
  | b :: rest, downloaded, total =>
    let r := download_media_for_block dl b._messages downloaded total
    let b2 : ContentBlock :=
      { b with media_paths := b.media_paths ++ r.1, _messages := [] }
    let r2 := materializeBlocks dl rest r.2.1 total
    (b2 :: r2.1, r2.2.1, r.2.2 ++ r2.2.2)

/-- Key order used by `all_blocks.sort(key=lambda b: b.date)`. -/
abbrev dateLe (a b : ContentBlock) : Prop := a.date ≤ b.date

/-- The final sort of `fetch_messages` (line 285): a stable sort by date. -/
def sortBlocksByDate (bs : List ContentBlock) : List ContentBlock :=
  List.insertionSort dateLe bs

/-- The post-authentication body of `TelegramFetcher.fetch_messages`
(lines 214-287) as a function of the remote stream and the download oracle:
collect the date-filtered messages, precount media, group into blocks,
materialize media block by block, and sort by date.  Returns the sorted
blocks together with the progress-callback invocations. -/
def fetch_messages (dl : Message → Except String (Option String))
    (start_date end_date : Int) (stream : List Message) :
    List ContentBlock × List (Nat × Nat) :=
  let collected := collectMessages start_date end_date stream
  let total := total_media_items collected
  let blocks := buildBlocks collected
  let r := materializeBlocks dl blocks 0 total
  (sortBlocksByDate r.1, r.2.2)

/-- Connection events observable on the Telethon client during a call to
`TelegramFetcher.fetch_messages`. -/
inductive ConnEv where
  | connected
  | disconnected
deriving DecidableEq, Repr

/-- Control-flow skeleton of `TelegramFetcher.fetch_messages`
(src/tg_client.py lines 210-290) with respect to the client connection:
`interactive_auth` first connects the client (line 153); when it reports
failure, `fetch_messages` raises `Exception("Authentication failed")` at
line 212, BEFORE entering the `try` block, so the `finally` at lines
289-290 does not run; when authentication succeeds, the body runs inside
`try ... finally: await self.client.disconnect()`, so `disconnected` is
emitted whether the body returns or raises.  `authOk` abstracts the result
of `interactive_auth`, `bodyOk` whether the fetch body raises.  Returns the
outcome (`.error` = exception propagated) and the event trace. -/
def fetchMessagesEvents (authOk bodyOk : Bool) : Except String Unit × List ConnEv :=
  if authOk = false then
    (Except.error "Authentication failed", [ConnEv.connected])
  else if bodyOk then
    (Except.ok (), [ConnEv.connected, ConnEv.disconnected])
  else
    (Except.error "fetch body failed", [ConnEv.connected, ConnEv.disconnected])

/-- Python slice `text[a:b]` for non-negative bounds on a code-point list:
clamped, and empty when `a ≥ b`. -/
def pySlice (l : List Char) (a b : Nat) : List Char := (l.take b).drop a

/-- Key order used by `sorted(entities, key=lambda e: e.offset)`. -/
abbrev offsetLe (a b : MessageEntity) : Prop := a.offset ≤ b.offset

/-- The run-emission loop of `DocxExporter._add_formatted_text`
(src/docx_client.py lines 148-202), with the paragraph's runs made
explicit: walking the offset-sorted entities with a cursor `current_pos`,
emit the untyped gap slice `text[current_pos:entity.offset]` when
`entity.offset > current_pos`, then the typed slice
`text[entity.offset:entity.offset+entity.length]`, and advance the cursor
to `entity.offset + entity.length`; after the last entity emit
`text[current_pos:]` when `current_pos < len(text)`.  Each emitted run is
paired with the entity it was styled by (`none` for untyped gap runs). -/
def formattedRuns (text : List Char) :
    Nat → List MessageEntity → List (List Char × Option MessageEntity)
  | current_pos, [] =>
    if current_pos < text.length then [(text.drop current_pos, none)] else []
  | current_pos, e :: rest =>
    (if e.offset > current_pos then [(pySlice text current_pos e.offset, none)] else []) ++
      (pySlice text e.offset (e.offset + e.length), some e) ::
        formattedRuns text (e.offset + e.length) rest

/-- `DocxExporter._add_formatted_text` (src/docx_client.py lines 126-202)
as the sequence of text runs it adds: with no entities, the whole text as
one untyped run; otherwise the runs produced by walking the entities in
ascending offset order (stable sort). -/
def add_formatted_text (text : List Char) (entities : List MessageEntity) :
    List (List Char × Option MessageEntity) :=
  if entities.isEmpty then
    [(text, none)]
  else
    formattedRuns text 0 (List.insertionSort offsetLe entities)

/-- Value of an ASCII decimal digit character, `none` otherwise. -/
def digitVal (c : Char) : Option Nat :=
  if c = '0' then some 0
  else if c = '1' then some 1
  else if c = '2' then some 2
  else if c = '3' then some 3
  else if c = '4' then some 4
  else if c = '5' then some 5
  else if c = '6' then some 6
  else if c = '7' then some 7
  else if c = '8' then some 8
  else if c = '9' then some 9
  else none

/-- Regex alternative `[1-9]` at `c`: a single non-zero digit. -/
def oneDigit (c : Char) (rest : List Char) : Option (Nat × List Char) :=
  match digitVal c with
  | some d => if 1 ≤ d then some (d, rest) else none
  | none => none

/-- Regex alternative `0[1-9]` after its leading `'0'` has been consumed. -/
def zeroDigit : List Char → Option (Nat × List Char)
  | [] => none
  | c2 :: rest2 => oneDigit c2 rest2

/-- Month alternatives starting with `'1'` (already consumed): `1[0-2]`
when a second digit 0..2 follows, else the single digit `1`. -/
def parseMonth1 : List Char → Option (Nat × List Char)
  | [] => some (1, [])
  | c2 :: rest2 =>
    if c2 = '0' then some (10, rest2)
    else if c2 = '1' then some (11, rest2)
    else if c2 = '2' then some (12, rest2)
    else some (1, c2 :: rest2)

/-- CPython `_strptime` month directive `%m` on a non-empty input: body of
`parseMonth` for input `c :: rest`. -/
def parseMonthCons (c : Char) (rest : List Char) : Option (Nat × List Char) :=
  if c = '1' then parseMonth1 rest
  else if c = '0' then zeroDigit rest
  else oneDigit c rest

/-- CPython `_strptime` month directive `%m`, regex `1[0-2]|0[1-9]|[1-9]`
with the leftmost-alternative, then-literal-match discipline of `re`:
consume one or two digits forming a month 1..12 and return it with the
remaining input. -/
def parseMonth : List Char → Option (Nat × List Char)
  | [] => none
  | c :: rest => parseMonthCons c rest

/-- Day alternatives starting with `'3'` (already consumed): `3[01]` when
0 or 1 follows, else the single digit `3`. -/
def parseDay3 : List Char → Option (Nat × List Char)
  | [] => some (3, [])
  | c2 :: rest2 =>
    if c2 = '0' then some (30, rest2)
    else if c2 = '1' then some (31, rest2)
    else some (3, c2 :: rest2)

/-- Regex alternative `[12]\d` after its first digit has been consumed:
`base` is 10 or 20, `fb` the single-digit fallback value 1 or 2. -/
def tensPlusDigit (base fb : Nat) : List Char → Option (Nat × List Char)
  | [] => some (fb, [])
  | c2 :: rest2 =>
    match digitVal c2 with
    | some d => some (base + d, rest2)
    | none => some (fb, c2 :: rest2)

/-- CPython `_strptime` day directive `%d` on a non-empty input: body of
`parseDay` for input `c :: rest`. -/
def parseDayCons (c : Char) (rest : List Char) : Option (Nat × List Char) :=
  if c = '3' then parseDay3 rest
  else if c = '0' then zeroDigit rest
  else if c = '1' then tensPlusDigit 10 1 rest
  else if c = '2' then tensPlusDigit 20 2 rest
  else oneDigit c rest

/-- CPython `_strptime` day directive `%d`, regex `3[01]|[12]\d|0[1-9]|[1-9]`:
consume one or two digits forming a day 1..31 and return it with the
remaining input. -/
def parseDay : List Char → Option (Nat × List Char)
  | [] => none
  | c :: rest => parseDayCons c rest

/-- Gregorian leap-year rule used by `datetime`. -/
def isLeap (y : Nat) : Bool := y % 4 = 0 && (y % 100 ≠ 0 || y % 400 = 0)

/-- Days in a month as validated by the `datetime` constructor. -/
def daysInMonth (y m : Nat) : Nat :=
  if m = 2 then (if isLeap y then 29 else 28)
  else if m = 4 ∨ m = 6 ∨ m = 9 ∨ m = 11 then 30
  else 31

/-- Consume the literal dash of the `"%Y-%m-%d"` format. -/
def parseDash : List Char → Option (List Char)
  | c :: rest => if c = '-' then some rest else none
  | [] => none

/-- The `%Y` directive of CPython `_strptime`: exactly four digits. -/
def year4 (y1 y2 y3 y4 : Char) : Option Nat :=
  match digitVal y1, digitVal y2, digitVal y3, digitVal y4 with
  | some a, some b, some c, some d => some (((a * 10 + b) * 10 + c) * 10 + d)
  | _, _, _, _ => none

/-- The whole `"%Y-%m-%d"` format on the code-point list of the input:
four year digits, a dash, the month, a dash, the day, end of input, then
the `datetime` constructor checks (`year ≥ 1`, day exists in month). -/
def strptimeList : List Char → Option (Nat × Nat × Nat)
  | y1 :: y2 :: y3 :: y4 :: rest0 =>
    (year4 y1 y2 y3 y4).bind fun y =>
    (parseDash rest0).bind fun rest =>
    (parseMonth rest).bind fun pm =>
    (parseDash pm.2).bind fun rest3 =>
    (parseDay rest3).bind fun pd =>
    if pd.2 = [] then
      if 1 ≤ y ∧ pd.1 ≤ daysInMonth y pm.1 then some (y, pm.1, pd.1) else none
    else none
  | _ => none

/-- `datetime.strptime(s, "%Y-%m-%d")` (the call in `parse_date`,
src/utils.py line 22), modelled after CPython `_strptime`: `%Y` matches
exactly four digits, the literal dashes must match, `%m` and `%d` follow
their regexes, the whole string must be consumed, and the `datetime`
constructor additionally requires `year ≥ 1` and the day to exist in the
month.  `none` models a raised `ValueError`. -/
def strptimeYMD (s : String) : Option (Nat × Nat × Nat) :=
  strptimeList s.data

/-- A Python `datetime` value, to the precision `parse_date` needs. -/
structure PyDateTime where
  year : Nat
  month : Nat
  day : Nat
  hour : Nat
  minute : Nat
  second : Nat
deriving DecidableEq, Repr

/-- `parse_date` (src/utils.py lines 9-24): return `default` when the input
is `None`; otherwise try `strptime` with format `"%Y-%m-%d"`, returning the
parsed midnight datetime, and fall back to `default` when it raises
`ValueError`. -/
def parse_date (date_str : Option String) (default : PyDateTime) : PyDateTime :=
  match date_str with
  | none => default
  | some s =>
    match strptimeYMD s with
    | some (y, m, d) => ⟨y, m, d, 0, 0, 0⟩
    | none => default

/-- View of a block that ignores the fields the materialization phase
mutates (`media_paths`, `_messages`). -/
def blockCore (b : ContentBlock) : Int × String × List MessageEntity :=
  (b.date, b.text, b.entities)

/-- Two entities whose spans do not overlap. -/
abbrev spansDisjoint (a b : MessageEntity) : Prop :=
  a.offset + a.length ≤ b.offset ∨ b.offset + b.length ≤ a.offset

instance : IsTotal Message idLe := ⟨fun a b => Nat.le_total a.id b.id⟩

instance : IsTrans Message idLe := ⟨fun _ _ _ h1 h2 => Nat.le_trans h1 h2⟩

instance : IsTotal ContentBlock dateLe := ⟨fun a b => Int.le_total a.date b.date⟩

instance : IsTrans ContentBlock dateLe := ⟨fun _ _ _ h1 h2 => Int.le_trans h1 h2⟩

instance : IsTotal MessageEntity offsetLe := ⟨fun a b => Nat.le_total a.offset b.offset⟩

instance : IsTrans MessageEntity offsetLe := ⟨fun _ _ _ h1 h2 => Nat.le_trans h1 h2⟩

/-- A Python slice `text[a:b]` followed by the rest of the text from `b` is
the rest of the text from `a`, provided `a ≤ b`. -/
lemma pySlice_append_drop (l : List Char) (a b : Nat) (h : a ≤ b) :
    pySlice l a b ++ l.drop b = l.drop a := by
  unfold pySlice
  conv_rhs => rw [← List.take_append_drop b l, List.drop_append_eq_append_drop]
  rw [List.length_take]
  rcases le_or_lt a (min b l.length) with h1 | h1
  · have h0 : a - min b l.length = 0 := by omega
    rw [h0, List.drop_zero]
  · have hb : l.length ≤ b := by omega
    have hd : l.drop b = [] := List.drop_eq_nil_of_le hb
    rw [hd]
    simp

/-- `find?` on a list sorted by id returns a satisfying element of minimal
id among the satisfying elements. -/
lemma find?_min_id_of_sorted {p : Message → Bool} :
    ∀ {l : List Message} {x : Message}, l.Pairwise idLe → l.find? p = some x →
      ∀ y ∈ l, p y = true → x.id ≤ y.id := by
  intro l
  induction l with
  | nil => intro x _ hf; simp at hf
  | cons a t ih =>
    intro x hp hf y hy hpy
    rcases List.pairwise_cons.mp hp with ⟨ha, ht⟩
    by_cases hpa : p a = true
    · rw [List.find?_cons_of_pos _ hpa] at hf
      cases hf
      rcases List.mem_cons.mp hy with rfl | hyt
      · exact Nat.le_refl _
      · exact ha y hyt
    · rw [List.find?_cons_of_neg _ hpa] at hf
      rcases List.mem_cons.mp hy with rfl | hyt
      · exact absurd hpy hpa
      · exact ih ht hf y hyt hpy

/-- The head of a list sorted by id has minimal id. -/
lemma head_min_id_of_sorted {a : Message} {t : List Message}
    (hp : (a :: t).Pairwise idLe) : ∀ y ∈ a :: t, a.id ≤ y.id := by
  intro y hy
  rcases List.mem_cons.mp hy with rfl | hyt
  · exact Nat.le_refl _
  · exact (List.pairwise_cons.mp hp).1 y hyt

/-- The paths appended by `_download_media_for_block`: one path per
media-carrying message whose download succeeds with a truthy result, in
message order.  A failed download only loses its own path. -/
lemma download_paths_eq (dl : Message → Except String (Option String)) :
    ∀ (msgs : List Message) (d t : Nat),
      (download_media_for_block dl msgs d t).1 =
        msgs.filterMap (fun m =>
          if m.hasMedia then
            match dl m with
            | Except.ok (some p) => some p
            | Except.ok none => none
            | Except.error _ => none
          else none) := by
  intro msgs
  induction msgs with
  | nil => intro d t; rfl
  | cons m rest ih =>
    intro d t
    rw [download_media_for_block, List.filterMap_cons]
    by_cases hm : m.hasMedia
    · simp only [hm, if_true]
      cases hdl : dl m with
      | ok fp =>
        cases fp with
        | some p => simp [hdl, ih]
        | none => simp [hdl, ih]
      | error e => simp [hdl, ih]
    · simp only [Bool.not_eq_true] at hm
      simp [hm, ih]

/-- A block with no media-carrying message produces no progress-callback
invocation and leaves the counter unchanged. -/
lemma download_no_media (dl : Message → Except String (Option String)) :
    ∀ (msgs : List Message) (d t : Nat), (∀ m ∈ msgs, m.hasMedia = false) →
      download_media_for_block dl msgs d t = ([], d, []) := by
  intro msgs
  induction msgs with
  | nil => intro d t _; rfl
  | cons m rest ih =>
    intro d t h
    rw [download_media_for_block]
    have hm : m.hasMedia = false := h m (List.mem_cons_self m rest)
    simp only [hm, Bool.false_eq_true, if_false]
    exact ih d t (fun x hx => h x (List.mem_cons_of_mem m hx))

/-- Materialization changes no block's date, text or entities, drops no
block, and reorders nothing. -/
lemma materialize_blockCore (dl : Message → Except String (Option String)) :
    ∀ (blocks : List ContentBlock) (d t : Nat),
      ((materializeBlocks dl blocks d t).1).map blockCore = blocks.map blockCore := by
  intro blocks
  induction blocks with
  | nil => intro d t; rfl
  | cons b rest ih =>
    intro d t
    rw [materializeBlocks]
    simp only [List.map_cons, ih]
    rfl

/-- If no block's stored messages carry media, materialization produces no
progress-callback invocation at all. -/
lemma materialize_no_media (dl : Message → Except String (Option String)) :
    ∀ (blocks : List ContentBlock) (d t : Nat),
      (∀ b ∈ blocks, ∀ m ∈ b._messages, m.hasMedia = false) →
      (materializeBlocks dl blocks d t).2.2 = [] := by
  intro blocks
  induction blocks with
  | nil => intro d t _; rfl
  | cons b rest ih =>
    intro d t h
    rw [materializeBlocks]
    have hb := h b (List.mem_cons_self b rest)
    rw [download_no_media dl b._messages d t hb]
    simp only [List.nil_append]
    exact ih _ t (fun x hx m hm => h x (List.mem_cons_of_mem b hx) m hm)

/-- `insertGrouped` preserves a property holding of every message stored in
the dictionary. -/
lemma insertGrouped_all {P : Message → Prop} :
    ∀ {d : List (Nat × List Message)} {k : Nat} {m : Message},
      (∀ e ∈ d, ∀ x ∈ e.2, P x) → P m →
      ∀ e ∈ insertGrouped d k m, ∀ x ∈ e.2, P x := by
  intro d
  induction d with
  | nil =>
    intro k m _ hm e he x hx
    simp only [insertGrouped, List.mem_singleton] at he
    subst he
    simp only [List.mem_singleton] at hx
    subst hx
    exact hm
  | cons p rest ih =>
    intro k m hd hm e he x hx
    obtain ⟨k2, ms⟩ := p
    rw [insertGrouped] at he
    by_cases hk : k2 = k
    · simp only [hk, if_true] at he
      rcases List.mem_cons.mp he with rfl | hrest
      · rcases List.mem_append.mp hx with hx1 | hx1
        · exact hd (k2, ms) (List.mem_cons_self _ _) x hx1
        · simp only [List.mem_singleton] at hx1
          subst hx1
          exact hm
      · exact hd e (List.mem_cons_of_mem _ hrest) x hx
    · simp only [hk, if_false] at he
      rcases List.mem_cons.mp he with rfl | hrest
      · exact hd (k2, ms) (List.mem_cons_self _ _) x hx
      · exact ih (fun e2 he2 => hd e2 (List.mem_cons_of_mem _ he2)) hm e hrest x hx

/-- The grouping fold preserves a property holding of every stored
message. -/
lemma groupStep_foldl_all {P : Message → Prop} :
    ∀ (msgs : List Message) (acc : List (Nat × List Message) × List Message),
      (∀ e ∈ acc.1, ∀ x ∈ e.2, P x) → (∀ x ∈ acc.2, P x) →
      (∀ m ∈ msgs, P m) →
      (∀ e ∈ (msgs.foldl groupStep acc).1, ∀ x ∈ e.2, P x) ∧
        (∀ x ∈ (msgs.foldl groupStep acc).2, P x) := by
  intro msgs
  induction msgs with
  | nil => intro acc h1 h2 _; exact ⟨h1, h2⟩
  | cons m rest ih =>
    intro acc h1 h2 h3
    rw [List.foldl_cons]
    have hm : P m := h3 m (List.mem_cons_self _ _)
    have hrest : ∀ x ∈ rest, P x := fun x hx => h3 x (List.mem_cons_of_mem _ hx)
    cases hg : m.grouped_id with
    | some gid =>
      have hstep : groupStep acc m = (insertGrouped acc.1 gid m, acc.2) := by
        simp [groupStep, hg]
      rw [hstep]
      exact ih _ (insertGrouped_all h1 hm) h2 hrest
    | none =>
      have hstep : groupStep acc m = (acc.1, acc.2 ++ [m]) := by
        simp [groupStep, hg]
      rw [hstep]
      refine ih _ h1 ?_ hrest
      intro x hx
      rcases List.mem_append.mp hx with hx1 | hx1
      · exact h2 x hx1
      · simp only [List.mem_singleton] at hx1
        subst hx1
        exact hm

/-- The stored message list of a merged block is the id-sorted member
list. -/
lemma merge_messages_eq {ms : List Message} {b : ContentBlock}
    (h : merge_grouped_messages ms = some b) :
    b._messages = List.insertionSort idLe ms := by
  unfold merge_grouped_messages at h
  cases hs : List.insertionSort idLe ms with
  | nil => rw [hs] at h; simp at h
  | cons first t =>
    rw [hs] at h
    simp only [Option.some.injEq] at h
    subst h
    rfl

/-- The stored message list of a standalone block is the singleton of its
message. -/
lemma create_messages_eq {m : Message} {b : ContentBlock}
    (h : create_block_from_message m = some b) : b._messages = [m] := by
  unfold create_block_from_message at h
  split_ifs at h
  simp only [Option.some.injEq] at h
  subst h
  rfl

/-- Every message stored in a block produced by `buildBlocks` comes from the
collected message list. -/
lemma buildBlocks_all {P : Message → Prop} (collected : List Message)
    (h : ∀ m ∈ collected, P m) :
    ∀ b ∈ buildBlocks collected, ∀ x ∈ b._messages, P x := by
  intro b hb x hx
  unfold buildBlocks at hb
  rcases List.mem_append.mp hb with hb1 | hb1
  · rcases List.mem_filterMap.mp hb1 with ⟨p, hp, hmerge⟩
    have hsplit := (groupStep_foldl_all collected ([], []) (by simp) (by simp) h).1
    have hmsgs := merge_messages_eq hmerge
    rw [hmsgs] at hx
    have hx2 : x ∈ p.2 := (List.perm_insertionSort idLe p.2).mem_iff.mp hx
    exact hsplit p hp x hx2
  · rcases List.mem_filterMap.mp hb1 with ⟨m, hm, hcreate⟩
    have hsplit := (groupStep_foldl_all collected ([], []) (by simp) (by simp) h).2
    have hmsgs := create_messages_eq hcreate
    rw [hmsgs] at hx
    simp only [List.mem_singleton] at hx
    subst hx
    exact hsplit x hm

/-- A zero media precount means no collected message carries media. -/
lemma total_media_zero {msgs : List Message} (h : total_media_items msgs = 0) :
    ∀ m ∈ msgs, m.hasMedia = false := by
  unfold total_media_items at h
  rw [List.length_eq_zero] at h
  intro m hm
  by_contra hc
  have : m ∈ msgs.filter (fun m => m.hasMedia) :=
    List.mem_filter.mpr ⟨hm, by simpa using hc⟩
  rw [h] at this
  exact absurd this (List.not_mem_nil m)


/-- Walking a chain of in-range entities from cursor `pos` emits exactly the
text from `pos` on. -/
lemma formattedRuns_flatten (text : List Char) :
    ∀ (l : List MessageEntity) (pos : Nat),
      (∀ e ∈ l, pos ≤ e.offset ∧ e.offset + e.length ≤ text.length) →
      l.Pairwise (fun a b => a.offset + a.length ≤ b.offset) →
      ((formattedRuns text pos l).map Prod.fst).flatten = text.drop pos := by
  intro l
  induction l with
  | nil =>
    intro pos _ _
    rw [formattedRuns]
    by_cases h : pos < text.length
    · simp [h]
    · have hle : text.length ≤ pos := Nat.le_of_not_lt h
      simp [h, List.drop_eq_nil_of_le hle]
  | cons e rest ih =>
    intro pos hb hchain
    rcases List.pairwise_cons.mp hchain with ⟨hhead, htail⟩
    have hbe := hb e (List.mem_cons_self _ _)
    have hrec := ih (e.offset + e.length)
      (fun x hx => ⟨hhead x hx, (hb x (List.mem_cons_of_mem _ hx)).2⟩) htail
    rw [formattedRuns]
    by_cases hgap : e.offset > pos
    · rw [if_pos hgap]
      simp only [List.map_append, List.map_cons, List.map_nil, List.flatten_append,
        List.flatten_cons, List.flatten_nil, List.append_nil, List.append_assoc]
      rw [hrec]
      rw [pySlice_append_drop text e.offset (e.offset + e.length) (Nat.le_add_right _ _)]
      exact pySlice_append_drop text pos e.offset (Nat.le_of_lt hgap)
    · have hpe : pos = e.offset := Nat.le_antisymm hbe.1 (Nat.le_of_not_lt hgap)
      rw [if_neg hgap]
      simp only [List.nil_append, List.map_cons, List.flatten_cons]
      rw [hrec]
      rw [pySlice_append_drop text e.offset (e.offset + e.length) (Nat.le_add_right _ _)]
      rw [hpe]

/-- After the offset sort, in-range positive-length pairwise-disjoint
entities form a chain: each span ends at or before the next begins. -/
lemma chain_of_sorted_disjoint :
    ∀ (l : List MessageEntity),
      l.Pairwise offsetLe → l.Pairwise spansDisjoint →
      (∀ e ∈ l, 1 ≤ e.length) →
      l.Pairwise (fun a b => a.offset + a.length ≤ b.offset) := by
  intro l
  induction l with
  | nil => intro _ _ _; exact List.Pairwise.nil
  | cons a t ih =>
    intro hs hd hlen
    rcases List.pairwise_cons.mp hs with ⟨hsa, hst⟩
    rcases List.pairwise_cons.mp hd with ⟨hda, hdt⟩
    refine List.pairwise_cons.mpr
      ⟨?_, ih hst hdt (fun e he => hlen e (List.mem_cons_of_mem _ he))⟩
    intro b hb
    have h1 : a.offset ≤ b.offset := hsa b hb
    have h3 : 1 ≤ b.length := hlen b (List.mem_cons_of_mem _ hb)
    rcases hda b hb with h2 | h2
    · exact h2
    · omega

/-- Every digit value is at most 9. -/
lemma digitVal_le9 {c : Char} {d : Nat} (h : digitVal c = some d) : d ≤ 9 := by
  unfold digitVal at h
  split_ifs at h
  all_goals first
    | exact Option.noConfusion h
    | (injection h with h; omega)

/-- A single non-zero digit parses to a value 1..9. -/
lemma oneDigit_range {c : Char} {rest : List Char} {m : Nat} {r : List Char}
    (h : oneDigit c rest = some (m, r)) : 1 ≤ m ∧ m ≤ 9 := by
  unfold oneDigit at h
  split at h
  · rename_i d heq
    have h9 := digitVal_le9 heq
    split_ifs at h with h1
    simp only [Option.some.injEq, Prod.mk.injEq] at h
    omega
  · simp at h

/-- The `0[1-9]` alternative parses to a value 1..9. -/
lemma zeroDigit_range {l : List Char} {m : Nat} {r : List Char}
    (h : zeroDigit l = some (m, r)) : 1 ≤ m ∧ m ≤ 9 := by
  cases l with
  | nil => simp [zeroDigit] at h
  | cons c2 rest2 => exact oneDigit_range h

/-- The month alternatives starting with `'1'` parse to 1 or 10..12. -/
lemma parseMonth1_range {l : List Char} {m : Nat} {r : List Char}
    (h : parseMonth1 l = some (m, r)) : 1 ≤ m ∧ m ≤ 12 := by
  cases l with
  | nil => simp [parseMonth1] at h; omega
  | cons c2 rest2 =>
    rw [parseMonth1] at h
    split_ifs at h <;> simp_all <;> omega

/-- The day alternatives starting with `'3'` parse to 3, 30 or 31. -/
lemma parseDay3_range {l : List Char} {m : Nat} {r : List Char}
    (h : parseDay3 l = some (m, r)) : 1 ≤ m ∧ m ≤ 31 := by
  cases l with
  | nil => simp [parseDay3] at h; omega
  | cons c2 rest2 =>
    rw [parseDay3] at h
    split_ifs at h <;> simp_all <;> omega

/-- The `[12]\d` alternative parses to the fallback or `base + digit`. -/
lemma tensPlusDigit_range {base fb : Nat} {l : List Char} {m : Nat} {r : List Char}
    (h : tensPlusDigit base fb l = some (m, r)) :
    m = fb ∨ (base ≤ m ∧ m ≤ base + 9) := by
  cases l with
  | nil => simp [tensPlusDigit] at h; omega
  | cons c2 rest2 =>
    rw [tensPlusDigit] at h
    split at h
    · rename_i d heq
      have h9 := digitVal_le9 heq
      simp only [Option.some.injEq, Prod.mk.injEq] at h
      omega
    · simp only [Option.some.injEq, Prod.mk.injEq] at h
      omega

/-- `%m` only produces months 1..12. -/
lemma parseMonth_range {l : List Char} {m : Nat} {rest : List Char}
    (h : parseMonth l = some (m, rest)) : 1 ≤ m ∧ m ≤ 12 := by
  cases l with
  | nil => simp [parseMonth] at h
  | cons c cs =>
    have h2 : parseMonthCons c cs = some (m, rest) := h
    unfold parseMonthCons at h2
    split_ifs at h2
    · exact parseMonth1_range h2
    · have := zeroDigit_range h2
      omega
    · have := oneDigit_range h2
      omega

/-- `%d` only produces days 1..31. -/
lemma parseDay_range {l : List Char} {d : Nat} {rest : List Char}
    (h : parseDay l = some (d, rest)) : 1 ≤ d ∧ d ≤ 31 := by
  cases l with
  | nil => simp [parseDay] at h
  | cons c cs =>
    have h2 : parseDayCons c cs = some (d, rest) := h
    unfold parseDayCons at h2
    split_ifs at h2
    · exact parseDay3_range h2
    · have := zeroDigit_range h2
      omega
    · have := tensPlusDigit_range h2
      omega
    · have := tensPlusDigit_range h2
      omega
    · have := oneDigit_range h2
      omega

/-- Every month length is at most 31 days. -/
lemma daysInMonth_le31 (y m : Nat) : daysInMonth y m ≤ 31 := by
  unfold daysInMonth
  split_ifs <;> omega

/-- A successful `strptime "%Y-%m-%d"` yields a calendar-valid date. -/
lemma strptimeYMD_range {s : String} {y m d : Nat}
    (h : strptimeYMD s = some (y, m, d)) :
    1 ≤ y ∧ 1 ≤ m ∧ m ≤ 12 ∧ 1 ≤ d ∧ d ≤ 31 := by
  unfold strptimeYMD at h
  rcases hl : s.data with _ | ⟨y1, _ | ⟨y2, _ | ⟨y3, _ | ⟨y4, rest0⟩⟩⟩⟩ <;>
    rw [hl] at h
  · simp [strptimeList] at h
  · simp [strptimeList] at h
  · simp [strptimeList] at h
  · simp [strptimeList] at h
  · rw [strptimeList] at h
    simp only [Option.bind_eq_some] at h
    obtain ⟨yv, hy, rest, hdash, pm, hpm, rest3, hdash2, pd, hpd, hfin⟩ := h
    split_ifs at hfin with hnil hcond
    simp only [Option.some.injEq, Prod.mk.injEq] at hfin
    obtain ⟨h1, h2, h3⟩ := hfin
    subst h1
    subst h2
    subst h3
    have hmr := parseMonth_range hpm
    have hdr : 1 ≤ pd.1 ∧ pd.1 ≤ 31 := parseDay_range hpd
    exact ⟨by omega, hmr.1, hmr.2, hdr.1, hdr.2⟩

/-- C1: for every date range and every remote message stream (and every
download oracle), the Post sequence returned by the fetch pipeline is
non-decreasing by timestamp. -/
theorem fetch_messages_sorted_by_date
    (dl : Message → Except String (Option String)) (start_date end_date : Int)
    (stream : List Message) :
    ((fetch_messages dl start_date end_date stream).1).Pairwise
      (fun a b => a.date ≤ b.date) :=
  List.sorted_insertionSort dateLe _

/-- C5: in the collection loop, a message dated in `[start, end]` (and not
a service message) is collected and iteration continues; the first message
dated strictly before `start` stops iteration with nothing further
collected; a message dated strictly after `end` is skipped without
stopping iteration.  Dates exactly equal to `start` or to `end` satisfy
the hypotheses of the first part, so boundary messages are included. -/
theorem collect_date_window (start_date end_date : Int) (m : Message)
    (rest : List Message) :
    (start_date ≤ m.date → m.date ≤ end_date → m.action_ = false →
      collectMessages start_date end_date (m :: rest) =
        m :: collectMessages start_date end_date rest) ∧
    (m.date < start_date → collectMessages start_date end_date (m :: rest) = []) ∧
    (start_date ≤ m.date → end_date < m.date →
      collectMessages start_date end_date (m :: rest) =
        collectMessages start_date end_date rest) := by
  refine ⟨?_, ?_, ?_⟩
  · intro h1 h2 h3
    rw [collectMessages]
    rw [if_neg (by omega), if_neg (by omega)]
    simp [h3]
  · intro h1
    rw [collectMessages]
    rw [if_pos h1]
  · intro h1 h2
    rw [collectMessages]
    rw [if_neg (by omega), if_pos (by omega)]

/-- C5 witness: a message dated exactly at `start` is collected; a message
dated one unit before `start` halts the walk; a message dated after `end`
is skipped. -/
theorem collect_date_window_witness :
    collectMessages 10 20 [⟨1, some "a", 10, none, false, false, []⟩] =
      [⟨1, some "a", 10, none, false, false, []⟩] ∧
    collectMessages 10 20 [⟨2, some "b", 9, none, false, false, []⟩,
      ⟨1, some "a", 20, none, false, false, []⟩] = [] ∧
    collectMessages 10 20 [⟨3, some "c", 21, none, false, false, []⟩] =
      collectMessages 10 20 [] :=
  ⟨(collect_date_window 10 20 _ _).1 (by decide) (by decide) rfl,
   (collect_date_window 10 20 _ _).2.1 (by decide),
   (collect_date_window 10 20 _ _).2.2 (by decide) (by decide)⟩

/-- C7 counterexample: when authentication fails, `fetch_messages` raises
before entering its `try`/`finally`, so the connection is NOT released on
that exit path — refuting the claim that `disconnect` is called on every
exit path including authentication failure. -/
theorem auth_failure_no_disconnect_counterexample :
    (fetchMessagesEvents false true).2 = [ConnEv.connected] ∧
    ConnEv.disconnected ∉ (fetchMessagesEvents false true).2 := by
  constructor
  · rfl
  · decide

/-- C7 amended: the connection is released on every exit of the
post-authentication body — both on success and on a failure raised inside
it — but not on the authentication-failure exit. -/
theorem disconnect_after_auth (authOk bodyOk : Bool) (h : authOk = true) :
    ConnEv.disconnected ∈ (fetchMessagesEvents authOk bodyOk).2 := by
  subst h
  cases bodyOk <;> decide

/-- C7 amended witness: the failure exit of the fetch body still
disconnects. -/
theorem disconnect_after_auth_witness :
    true = true ∧ ConnEv.disconnected ∈ (fetchMessagesEvents true false).2 :=
  ⟨rfl, disconnect_after_auth true false rfl⟩

/-- C9: a standalone message with falsy text and no media yields no block;
one with falsy text but media yields exactly one block with empty text
holding that message; materializing that block with a successful download
stores exactly the one path. -/
theorem standalone_empty_message_blocks (m : Message)
    (dl : Message → Except String (Option String)) (p : String) :
    (pyTruthy m.message = false → m.hasMedia = false →
      create_block_from_message m = none) ∧
    (pyTruthy m.message = false → m.hasMedia = true →
      create_block_from_message m = some ⟨m.date, "", m.entities, [], [m]⟩) ∧
    (m.hasMedia = true → dl m = Except.ok (some p) →
      (download_media_for_block dl [m] 0 1).1 = [p]) := by
  refine ⟨?_, ?_, ?_⟩
  · intro h1 h2
    unfold create_block_from_message
    rw [if_pos]
    constructor <;> simp [h1, h2]
  · intro h1 h2
    have horEmpty : orEmpty m.message = "" := by
      cases hm : m.message with
      | none => rfl
      | some s =>
        rw [hm] at h1
        simp only [pyTruthy, ne_eq, decide_not] at h1
        simp only [orEmpty]
        simpa using h1
    unfold create_block_from_message
    rw [if_neg (by simp [h2])]
    rw [horEmpty]
  · intro h1 h2
    rw [download_media_for_block]
    rw [if_pos h1, h2]
    rfl

/-- C9 witness: a concrete empty service-free message without media is
dropped; the same message with media yields one block that materializes to
one attachment. -/
theorem standalone_empty_message_blocks_witness :
    create_block_from_message ⟨7, some "", 5, none, false, false, []⟩ = none ∧
    create_block_from_message ⟨8, none, 6, none, true, false, []⟩ =
      some ⟨6, "", [], [], [⟨8, none, 6, none, true, false, []⟩]⟩ ∧
    (download_media_for_block (fun _ => Except.ok (some "img.jpg"))
      [⟨8, none, 6, none, true, false, []⟩] 0 1).1 = ["img.jpg"] :=
  ⟨(standalone_empty_message_blocks ⟨7, some "", 5, none, false, false, []⟩
      (fun _ => Except.ok (some "img.jpg")) "img.jpg").1 (by decide) rfl,
   (standalone_empty_message_blocks ⟨8, none, 6, none, true, false, []⟩
      (fun _ => Except.ok (some "img.jpg")) "img.jpg").2.1 (by decide) rfl,
   (standalone_empty_message_blocks ⟨8, none, 6, none, true, false, []⟩
      (fun _ => Except.ok (some "img.jpg")) "img.jpg").2.2 rfl rfl⟩

/-- C10: `parse_date` is total (it never raises): it returns the default on
`None` input and on any string `strptime` rejects, and the parsed midnight
datetime on any string `strptime` accepts — which is then a calendar-valid
date. -/
theorem parse_date_never_raises (ds : Option String) (default : PyDateTime) :
    (ds = none → parse_date ds default = default) ∧
    (∀ s, ds = some s → strptimeYMD s = none → parse_date ds default = default) ∧
    (∀ s y m d, ds = some s → strptimeYMD s = some (y, m, d) →
      parse_date ds default = ⟨y, m, d, 0, 0, 0⟩ ∧
        1 ≤ y ∧ 1 ≤ m ∧ m ≤ 12 ∧ 1 ≤ d ∧ d ≤ 31) := by
  refine ⟨?_, ?_, ?_⟩
  · intro h
    subst h
    rfl
  · intro s hs hfail
    subst hs
    simp [parse_date, hfail]
  · intro s y m d hs hok
    subst hs
    constructor
    · simp [parse_date, hok]
    · exact strptimeYMD_range hok

/-- C10 witness: a malformed date (February 30th) falls back to the
default, a well-formed date parses. -/
theorem parse_date_never_raises_witness :
    strptimeYMD "2023-02-30" = none ∧
    parse_date (some "2023-02-30") ⟨1999, 1, 1, 2, 3, 4⟩ = ⟨1999, 1, 1, 2, 3, 4⟩ ∧
    strptimeYMD "2023-01-05" = some (2023, 1, 5) ∧
    parse_date (some "2023-01-05") ⟨1999, 1, 1, 2, 3, 4⟩ = ⟨2023, 1, 5, 0, 0, 0⟩ :=
  ⟨by decide,
   (parse_date_never_raises (some "2023-02-30") ⟨1999, 1, 1, 2, 3, 4⟩).2.1
     "2023-02-30" rfl (by decide),
   by decide,
   ((parse_date_never_raises (some "2023-01-05") ⟨1999, 1, 1, 2, 3, 4⟩).2.2
     "2023-01-05" 2023 1 5 rfl (by decide)).1⟩

/-- C4 counterexample: in the album `[{id:5, text:""}, {id:3, text:"  "}]`
(all members blank after strip) the merged block's text is the
representative's raw text `"  "`, not the empty string the claim
predicts. -/
theorem merge_blank_album_counterexample :
    (merge_grouped_messages
        [⟨5, some "", 50, some 200, true, false, []⟩,
         ⟨3, some "  ", 30, some 200, true, false, []⟩]).map ContentBlock.text =
      some "  " ∧
    ("  " : String) ≠ "" := by
  constructor
  · decide
  · decide

/-- C4 amended: when every member of the album is blank after stripping,
the representative is the lowest-id member (id 3) and the merged block
copies its text verbatim (here `"  "`), its timestamp and its entities —
regardless of the input order of the two members. -/
theorem merge_blank_album_raw_text (d3 d5 : Int) (e3 e5 : List MessageEntity) :
    merge_grouped_messages
        [⟨5, some "", d5, some 200, true, false, e5⟩,
         ⟨3, some "  ", d3, some 200, true, false, e3⟩] =
      some ⟨d3, "  ", e3, [],
        [⟨3, some "  ", d3, some 200, true, false, e3⟩,
         ⟨5, some "", d5, some 200, true, false, e5⟩]⟩ ∧
    merge_grouped_messages
        [⟨3, some "  ", d3, some 200, true, false, e3⟩,
         ⟨5, some "", d5, some 200, true, false, e5⟩] =
      some ⟨d3, "  ", e3, [],
        [⟨3, some "  ", d3, some 200, true, false, e3⟩,
         ⟨5, some "", d5, some 200, true, false, e5⟩]⟩ := by
  constructor <;> rfl

/-- C6 counterexample: a run whose date window contains one text-only
message has media total 0, and the progress callback is never invoked —
not invoked once with `(0, 1)` as the claim states. -/
theorem zero_media_callback_counterexample :
    total_media_items (collectMessages 0 10
      [⟨1, some "hi", 5, none, false, false, []⟩]) = 0 ∧
    (fetch_messages (fun _ => Except.ok none) 0 10
      [⟨1, some "hi", 5, none, false, false, []⟩]).2 = [] ∧
    (fetch_messages (fun _ => Except.ok none) 0 10
      [⟨1, some "hi", 5, none, false, false, []⟩]).2 ≠ [(0, 1)] := by
  refine ⟨by decide, by decide, by decide⟩

/-- C6 amended: when the precomputed media total is zero, the fetch
pipeline invokes the media progress callback zero times (the invocation
sits inside the per-media-message loop, which never runs). -/
theorem zero_media_no_callback (dl : Message → Except String (Option String))
    (start_date end_date : Int) (stream : List Message)
    (h : total_media_items (collectMessages start_date end_date stream) = 0) :
    (fetch_messages dl start_date end_date stream).2 = [] := by
  have hnom := total_media_zero h
  have hblocks := buildBlocks_all (collectMessages start_date end_date stream) hnom
  show (materializeBlocks dl (buildBlocks (collectMessages start_date end_date stream)) 0
    (total_media_items (collectMessages start_date end_date stream))).2.2 = []
  exact materialize_no_media dl _ 0 _ hblocks

/-- C6 amended witness: the attachment-free run above triggers zero
callback invocations. -/
theorem zero_media_no_callback_witness :
    total_media_items (collectMessages 0 10
      [⟨2, some "txt", 4, none, false, false, []⟩]) = 0 ∧
    (fetch_messages (fun _ => Except.error "dl") 0 10
      [⟨2, some "txt", 4, none, false, false, []⟩]).2 = [] :=
  ⟨by decide,
   zero_media_no_callback (fun _ => Except.error "dl") 0 10
     [⟨2, some "txt", 4, none, false, false, []⟩] (by decide)⟩

/-- C8: a failed attachment download is isolated.  (1) Per block, the
stored paths are exactly those of the media messages whose download
succeeds truthily — a failure loses only its own path, later attachments
of the same block still download.  (2) Materialization preserves every
block's date, text and entities, whatever the oracle does — no block is
aborted.  (3) The full fetch returns the same Post sequence (dates, texts,
entities, up to the sort's arrangement) under any two download oracles, so
failures never shrink the returned sequence. -/
theorem attachment_failure_isolation
    (dl dl2 : Message → Except String (Option String)) (msgs : List Message)
    (blocks : List ContentBlock) (d t : Nat)
    (start_date end_date : Int) (stream : List Message) :
    (download_media_for_block dl msgs d t).1 =
      msgs.filterMap (fun m =>
        if m.hasMedia then
          match dl m with
          | Except.ok (some p) => some p
          | Except.ok none => none
          | Except.error _ => none
        else none) ∧
    ((materializeBlocks dl blocks d t).1).map blockCore = blocks.map blockCore ∧
    (((fetch_messages dl start_date end_date stream).1).map blockCore).Perm
      (((fetch_messages dl2 start_date end_date stream).1).map blockCore) := by
  refine ⟨download_paths_eq dl msgs d t, materialize_blockCore dl blocks d t, ?_⟩
  have e1 := materialize_blockCore dl
    (buildBlocks (collectMessages start_date end_date stream)) 0
    (total_media_items (collectMessages start_date end_date stream))
  have e2 := materialize_blockCore dl2
    (buildBlocks (collectMessages start_date end_date stream)) 0
    (total_media_items (collectMessages start_date end_date stream))
  have p1 := (List.perm_insertionSort dateLe
    (materializeBlocks dl (buildBlocks (collectMessages start_date end_date stream)) 0
      (total_media_items (collectMessages start_date end_date stream))).1).map blockCore
  have p2 := (List.perm_insertionSort dateLe
    (materializeBlocks dl2 (buildBlocks (collectMessages start_date end_date stream)) 0
      (total_media_items (collectMessages start_date end_date stream))).1).map blockCore
  refine List.Perm.trans p1 (List.Perm.trans ?_ p2.symm)
  rw [e1, e2]

/-- Unfolding of `merge_grouped_messages` once the sorted member list is
known to be non-empty. -/
lemma merge_eq_of_sorted {messages : List Message} {first : Message}
    {restS : List Message}
    (hS : List.insertionSort idLe messages = first :: restS) :
    merge_grouped_messages messages =
      some { date := (((first :: restS).find? hasNonBlankText).getD first).date
             text := orEmpty ((((first :: restS).find? hasNonBlankText).getD first)).message
             entities := (((first :: restS).find? hasNonBlankText).getD first).entities
             media_paths := []
             _messages := first :: restS } := by
  unfold merge_grouped_messages
  rw [hS]

/-- C3: for every non-empty album group, the merge produces a block whose
stored member list is the id-sorted group, and whose text, entities and
timestamp are copied from a representative member: the minimal-id member
with non-blank text when one exists, otherwise the minimal-id member. -/
theorem merge_representative_selection (messages : List Message)
    (hne : messages ≠ []) :
    ∃ rep b, rep ∈ messages ∧ merge_grouped_messages messages = some b ∧
      b.text = orEmpty rep.message ∧ b.date = rep.date ∧ b.entities = rep.entities ∧
      b._messages.Pairwise idLe ∧ b._messages.Perm messages ∧
      ((∃ x ∈ messages, hasNonBlankText x = true) →
        hasNonBlankText rep = true ∧
          ∀ x ∈ messages, hasNonBlankText x = true → rep.id ≤ x.id) ∧
      ((∀ x ∈ messages, hasNonBlankText x = false) →
        ∀ x ∈ messages, rep.id ≤ x.id) := by
  have hperm := List.perm_insertionSort idLe messages
  have hsorted := List.sorted_insertionSort idLe messages
  have hne2 : List.insertionSort idLe messages ≠ [] := by
    intro hcon
    rw [hcon] at hperm
    exact hne hperm.symm.eq_nil
  obtain ⟨first, restS, hS⟩ := List.exists_cons_of_ne_nil hne2
  rw [hS] at hperm hsorted
  cases hfind : (first :: restS).find? hasNonBlankText with
  | some x =>
    have hxmemS : x ∈ first :: restS := List.mem_of_find?_eq_some hfind
    have hxmem : x ∈ messages := hperm.mem_iff.mp hxmemS
    have hxP : hasNonBlankText x = true := List.find?_some hfind
    refine ⟨x, ⟨x.date, orEmpty x.message, x.entities, [], first :: restS⟩,
      hxmem, ?_, rfl, rfl, rfl, hsorted, hperm, ?_, ?_⟩
    · rw [merge_eq_of_sorted hS, hfind]
      rfl
    · intro _
      refine ⟨hxP, ?_⟩
      intro y hy hyP
      exact find?_min_id_of_sorted hsorted hfind y (hperm.mem_iff.mpr hy) hyP
    · intro hall
      exact absurd hxP (by simp [hall x hxmem])
  | none =>
    have hfmem : first ∈ messages := hperm.mem_iff.mp (List.mem_cons_self _ _)
    refine ⟨first, ⟨first.date, orEmpty first.message, first.entities, [],
      first :: restS⟩, hfmem, ?_, rfl, rfl, rfl, hsorted, hperm, ?_, ?_⟩
    · rw [merge_eq_of_sorted hS, hfind]
      rfl
    · intro hex
      obtain ⟨x, hx, hxP⟩ := hex
      have hxS : x ∈ first :: restS := hperm.mem_iff.mpr hx
      exact absurd hxP (by simpa using (List.find?_eq_none.mp hfind) x hxS)
    · intro _ y hy
      exact head_min_id_of_sorted hsorted y (hperm.mem_iff.mpr hy)

/-- C3 witness: the spec's example group
`[{id:2, text:""}, {id:1, text:"hello"}]` is non-empty, so the merge picks
a lowest-id non-blank representative (id 1, text `"hello"`). -/
theorem merge_representative_selection_witness :
    ([⟨2, some "", 20, some 100, false, false, []⟩,
      ⟨1, some "hello", 10, some 100, true, false, []⟩] : List Message) ≠ [] ∧
    (∃ rep b, rep ∈ ([⟨2, some "", 20, some 100, false, false, []⟩,
        ⟨1, some "hello", 10, some 100, true, false, []⟩] : List Message) ∧
      merge_grouped_messages [⟨2, some "", 20, some 100, false, false, []⟩,
        ⟨1, some "hello", 10, some 100, true, false, []⟩] = some b ∧
      b.text = orEmpty rep.message ∧ b.date = rep.date ∧ b.entities = rep.entities ∧
      b._messages.Pairwise idLe ∧
      b._messages.Perm ([⟨2, some "", 20, some 100, false, false, []⟩,
        ⟨1, some "hello", 10, some 100, true, false, []⟩] : List Message) ∧
      ((∃ x ∈ ([⟨2, some "", 20, some 100, false, false, []⟩,
          ⟨1, some "hello", 10, some 100, true, false, []⟩] : List Message),
          hasNonBlankText x = true) →
        hasNonBlankText rep = true ∧
          ∀ x ∈ ([⟨2, some "", 20, some 100, false, false, []⟩,
            ⟨1, some "hello", 10, some 100, true, false, []⟩] : List Message),
            hasNonBlankText x = true → rep.id ≤ x.id) ∧
      ((∀ x ∈ ([⟨2, some "", 20, some 100, false, false, []⟩,
          ⟨1, some "hello", 10, some 100, true, false, []⟩] : List Message),
          hasNonBlankText x = false) →
        ∀ x ∈ ([⟨2, some "", 20, some 100, false, false, []⟩,
          ⟨1, some "hello", 10, some 100, true, false, []⟩] : List Message),
          rep.id ≤ x.id)) :=
  ⟨by decide, merge_representative_selection _ (by decide)⟩

/-- C2: for every text and every set of positive-length, in-range,
pairwise non-overlapping entities, concatenating the text slices emitted
by `_add_formatted_text` (gap runs, typed entity runs, trailing run)
reproduces the original text exactly. -/
theorem add_formatted_text_round_trip (text : List Char)
    (entities : List MessageEntity)
    (hrange : ∀ e ∈ entities, 1 ≤ e.length ∧ e.offset + e.length ≤ text.length)
    (hdisj : entities.Pairwise spansDisjoint) :
    ((add_formatted_text text entities).map Prod.fst).flatten = text := by
  unfold add_formatted_text
  by_cases hemp : entities.isEmpty
  · rw [if_pos hemp]
    simp
  · rw [if_neg hemp]
    have hperm := List.perm_insertionSort offsetLe entities
    have hsorted := List.sorted_insertionSort offsetLe entities
    have hsym : ∀ {x y : MessageEntity}, spansDisjoint x y → spansDisjoint y x := by
      intro x y hxy
      rcases hxy with hh | hh
      · exact Or.inr hh
      · exact Or.inl hh
    have hdisj2 : (List.insertionSort offsetLe entities).Pairwise spansDisjoint :=
      (List.Perm.pairwise_iff hsym hperm).mpr hdisj
    have hlen : ∀ e ∈ List.insertionSort offsetLe entities, 1 ≤ e.length :=
      fun e he => (hrange e (hperm.mem_iff.mp he)).1
    have hchain := chain_of_sorted_disjoint _ hsorted hdisj2 hlen
    have hbound : ∀ e ∈ List.insertionSort offsetLe entities,
        0 ≤ e.offset ∧ e.offset + e.length ≤ text.length :=
      fun e he => ⟨Nat.zero_le _, (hrange e (hperm.mem_iff.mp he)).2⟩
    have hmain := formattedRuns_flatten text
      (List.insertionSort offsetLe entities) 0 hbound hchain
    simpa using hmain

/-- C2 witness: two disjoint in-range entities over `"hello world"`
round-trip. -/
theorem add_formatted_text_round_trip_witness :
    (∀ e ∈ ([⟨6, 5, MessageEntityKind.bold⟩, ⟨0, 5, MessageEntityKind.italic⟩] :
        List MessageEntity),
      1 ≤ e.length ∧ e.offset + e.length ≤ ("hello world".data).length) ∧
    ([⟨6, 5, MessageEntityKind.bold⟩, ⟨0, 5, MessageEntityKind.italic⟩] :
      List MessageEntity).Pairwise spansDisjoint ∧
    ((add_formatted_text "hello world".data
        [⟨6, 5, MessageEntityKind.bold⟩, ⟨0, 5, MessageEntityKind.italic⟩]).map
      Prod.fst).flatten = "hello world".data :=
  ⟨by decide, by decide,
   add_formatted_text_round_trip _ _ (by decide) (by decide)⟩
